import Mathlib

set_option synthInstance.maxHeartbeats 1000000
set_option synthInstance.maxSize 2000
set_option maxHeartbeats 1000000

/-!
Shallow embedding of the circbuf CircularBuffer (include/circbuf/circular_buffer.hpp)
and its RawBuffer slot arena (include/circbuf/detail/raw_buffer.hpp).

Modelling conventions:
* A slot of the arena is a pair of its memory content (an Option value, none meaning
  the slot was never written) and a liveness flag mirroring the debug bitmap
  m_constructed of RawBuffer.  Destroying a slot clears the liveness flag but leaves
  the content in place, the way a trivially destructible C++ object leaves its bits
  in memory.  Reading a slot returns whatever bits are there; reading a slot that was
  never written is the error garbage (uninitialized memory in the C++ code).
* The debug assertions of RawBuffer.construct and RawBuffer.destroy become the error
  assertFail: construct demands a dead slot, destroy demands a live one.
* The sentinel value npos of m_tail is modelled by Option Nat, none standing for npos.
* Every C++ throw becomes an error value: zeroCapacity for the std logic error on a
  zero capacity push, bufferFull and bufferEmpty for the out of range throws of
  push and pop, outOfRange for indexed access.  Each throw in the source happens
  before any mutation, and correspondingly each error here is returned before a new
  state is built, so an error result means the buffer was left untouched.
-/

namespace Circbuf

/-- Failure modes of the embedded code, one constructor per C++ throw plus the two
defect detectors of the debug build. -/
inductive CbError where
  | zeroCapacity
  | bufferFull
  | bufferEmpty
  | outOfRange
  | assertFail
  | garbage
deriving DecidableEq, Repr

/-- Slot arena: mirrors detail::RawBuffer.  data holds the memory content of each
slot, live mirrors the debug liveness bitmap m_constructed.  The C++ field m_size is
the length of data. -/
structure RawBuffer (α : Type) where
  data : List (Option α)
  live : List Bool
deriving DecidableEq, Repr

/-- Mirrors the RawBuffer size constructor: n uninitialized, dead slots. -/
def RawBuffer.alloc (n : Nat) : RawBuffer α :=
  ⟨List.replicate n none, List.replicate n false⟩

/-- Mirrors RawBuffer::size, which returns m_size, the allocation length. -/
def RawBuffer.size (rb : RawBuffer α) : Nat := rb.data.length

/-- Mirrors RawBuffer::construct: the debug build asserts the slot is not live,
then placement constructs the value and marks the slot live. -/
def RawBuffer.construct (rb : RawBuffer α) (i : Nat) (v : α) : Except CbError (RawBuffer α) :=
  if rb.live.getD i false then .error .assertFail
  else .ok ⟨rb.data.set i (some v), rb.live.set i true⟩

/-- Mirrors RawBuffer::destroy: the debug build asserts the slot is live, then runs
the destructor (which leaves the bits in memory) and marks the slot dead. -/
def RawBuffer.destroy (rb : RawBuffer α) (i : Nat) : Except CbError (RawBuffer α) :=
  if rb.live.getD i false then .ok ⟨rb.data, rb.live.set i false⟩
  else .error .assertFail

/-- Mirrors a read through RawBuffer::at: no bounds or liveness check, the bits at
the slot are returned; a slot that was never written yields garbage. -/
def RawBuffer.read (rb : RawBuffer α) (i : Nat) : Except CbError α :=
  match rb.data.getD i none with
  | some v => .ok v
  | none => .error .garbage

/-- Mirrors an assignment through RawBuffer::at (buffer.at(i) = v): the bits are
overwritten, the liveness bitmap is not consulted and not changed. -/
def RawBuffer.assign (rb : RawBuffer α) (i : Nat) (v : α) : RawBuffer α :=
  ⟨rb.data.set i (some v), rb.live⟩

/-- Mirrors circbuf::BufferCapacityPolicy. -/
inductive BufferCapacityPolicy where
  | fixedCapacity
  | dynamicCapacity
deriving DecidableEq, Repr

/-- Mirrors circbuf::BufferStorePolicy. -/
inductive BufferStorePolicy where
  | replaceOnFull
  | throwOnFull
deriving DecidableEq, Repr

/-- Mirrors circbuf::BufferResizePolicy. -/
inductive BufferResizePolicy where
  | discardOld
  | discardNew
deriving DecidableEq, Repr

/-- Mirrors circbuf::BufferInsertPolicy. -/
inductive BufferInsertPolicy where
  | discardHead
  | discardTail
deriving DecidableEq, Repr

/-- Mirrors circbuf::BufferPolicy with its two defaulted fields. -/
structure BufferPolicy where
  capacityMode : BufferCapacityPolicy := .fixedCapacity
  storeMode : BufferStorePolicy := .replaceOnFull
deriving DecidableEq, Repr

/-- Mirrors circbuf::CircularBuffer: the arena m_buffer, the cursors m_head and
m_tail (none standing for the sentinel npos) and the policy. -/
structure CircularBuffer (α : Type) where
  buf : RawBuffer α
  head : Nat
  tail : Option Nat
  policy : BufferPolicy
deriving DecidableEq, Repr

namespace CircularBuffer

/-- Mirrors CircularBuffer::capacity, which returns m_buffer.size(). -/
def capacity (b : CircularBuffer α) : Nat := b.buf.size

/-- Mirrors CircularBuffer::size: capacity when m_tail is the npos sentinel, else
(m_tail + capacity - m_head) mod capacity. -/
def size (b : CircularBuffer α) : Nat :=
  match b.tail with
  | none => b.capacity
  | some t => (t + b.capacity - b.head) % b.capacity

/-- Mirrors the CircularBuffer capacity and policy constructor: m_head = 0 and
m_tail = (capacity == 0 ? npos : 0). -/
def mkBuffer (cap : Nat) (p : BufferPolicy) : CircularBuffer α :=
  ⟨RawBuffer.alloc cap, 0, if cap = 0 then none else some 0, p⟩

/-- Mirrors CircularBuffer::increment on an index below cap: adds one and wraps to
zero at cap. -/
def incr (cap i : Nat) : Nat := if i + 1 = cap then 0 else i + 1

/-- Mirrors CircularBuffer::decrement on an index below cap: subtracts one and wraps
to cap - 1 at zero. -/
def decr (cap i : Nat) : Nat := if i = 0 then cap - 1 else i - 1

/-- Mirrors CircularBuffer::linearized, the test m_head == 0. -/
def linearized (b : CircularBuffer α) : Bool := b.head == 0

/-- Logical sequence of the buffer: the slot content at offset i from m_head for
each i below size.  This is the sequence the iterators and at() traverse. -/
def toList (b : CircularBuffer α) : List (Option α) :=
  (List.range b.size).map fun i => b.buf.data.getD ((b.head + i) % b.capacity) none

/-- Mirrors CircularBuffer::at (const): out of range check against size, then a read
at the physical index (m_head + pos) mod capacity. -/
def atPos (b : CircularBuffer α) (pos : Nat) : Except CbError α :=
  if b.size ≤ pos then .error .outOfRange
  else b.buf.read ((b.head + pos) % b.capacity)

/-- Mirrors CircularBuffer::clear: destroy the slot at (m_head + i) mod capacity for
each i below size, then set m_head = 0 and m_tail = 0. -/
def clear (b : CircularBuffer α) : Except CbError (CircularBuffer α) := do
  let rb ← (List.range b.size).foldlM
    (fun rb i => RawBuffer.destroy rb ((b.head + i) % b.capacity)) b.buf
  pure { b with buf := rb, head := 0, tail := some 0 }

/-- Mirrors CircularBuffer::resize with its four branches.  In the grow branch the
source destroys the slot at physical index i while it moves out of the slot at
(m_head + i) mod capacity, exactly as the line m_buffer.destroy(i) does; the shrink
branches destroy the moved from slot itself.  The new m_tail of the grow branch is
computed from the old capacity before the arena is swapped, as in the source. -/
def resize (b : CircularBuffer α) (newCapacity : Nat) (policy : BufferResizePolicy) :
    Except CbError (CircularBuffer α) := do
  if newCapacity = 0 then
    let b ← b.clear
    pure { b with tail := none }
  else if newCapacity = b.capacity then
    pure b
  else if b.size = 0 then
    pure { b with buf := RawBuffer.alloc newCapacity, head := 0, tail := some 0 }
  else if b.capacity < newCapacity then
    let st ← (List.range b.size).foldlM
      (fun (p : RawBuffer α × RawBuffer α) i => do
        let v ← p.1.read ((b.head + i) % b.capacity)
        let nb ← p.2.construct i v
        let ob ← p.1.destroy i
        pure (ob, nb))
      (b.buf, RawBuffer.alloc newCapacity)
    let newTail := match b.tail with
      | none => b.capacity
      | some t => (t + b.capacity - b.head) % b.capacity
    pure { b with buf := st.2, head := 0, tail := some newTail }
  else
    let count := b.size
    let offset := if count ≤ newCapacity then 0 else count - newCapacity
    let nb ← (match policy with
      | .discardOld =>
        let first := (b.head + offset) % b.capacity
        ((List.range (min newCapacity count)).foldlM
          (fun (p : RawBuffer α × RawBuffer α) i => do
            let idx := (first + i) % b.capacity
            let v ← p.1.read idx
            let nb ← p.2.construct i v
            let ob ← p.1.destroy idx
            pure (ob, nb))
          (b.buf, RawBuffer.alloc newCapacity)).map Prod.snd
      | .discardNew =>
        let e0 := match b.tail with
          | none => b.head
          | some t => t
        let e1 := (e0 + b.capacity - offset) % b.capacity
        (((List.range (min newCapacity count)).reverse).foldlM
          (fun (p : Nat × RawBuffer α × RawBuffer α) i => do
            let e := (p.1 + b.capacity - 1) % b.capacity
            let v ← p.2.1.read e
            let nb ← p.2.2.construct i v
            let ob ← p.2.1.destroy e
            pure (e, ob, nb))
          (e1, b.buf, RawBuffer.alloc newCapacity)).map
          (fun (p : Nat × RawBuffer α × RawBuffer α) => p.2.2))
    pure { buf := nb, head := 0,
           tail := if count ≤ newCapacity then some count else none,
           policy := b.policy }

/-- Mirrors CircularBuffer::setPolicy with its two optional arguments. -/
def setPolicy (b : CircularBuffer α) (cp : Option BufferCapacityPolicy)
    (sp : Option BufferStorePolicy) : CircularBuffer α :=
  let p1 := match cp with
    | some c => { b.policy with capacityMode := c }
    | none => b.policy
  let p2 := match sp with
    | some s => { p1 with storeMode := s }
    | none => p1
  { b with policy := p2 }

/-- Mirrors the full and zero capacity preamble shared by push_back, push_front and
insert: a zero capacity buffer grows to one slot under DynamicCapacity and fails
with the zero capacity error otherwise; a full buffer (m_tail == npos) doubles under
DynamicCapacity, fails with BufferFull under ThrowOnFull, and is otherwise left to
the replace branch of the caller. -/
def growOrFail (b : CircularBuffer α) : Except CbError (CircularBuffer α) := do
  let b ←
    if b.capacity = 0 then
      if b.policy.capacityMode = .dynamicCapacity then b.resize 1 .discardOld
      else .error .zeroCapacity
    else pure b
  if b.tail = none then
    if b.policy.capacityMode = .dynamicCapacity then b.resize (b.capacity * 2) .discardOld
    else if b.policy.storeMode = .throwOnFull then .error .bufferFull
    else pure b
  else pure b

/-- Mirrors CircularBuffer::push_back (the rvalue overload).  The returned Nat is
the physical slot of the inserted element, standing for the returned reference. -/
def pushBack (b : CircularBuffer α) (v : α) : Except CbError (CircularBuffer α × Nat) := do
  let b ← b.growOrFail
  match b.tail with
  | some t =>
    let rb ← b.buf.construct t v
    let t2 := incr b.capacity t
    pure ({ b with buf := rb, tail := if t2 = b.head then none else some t2 }, t)
  | none =>
    let rb := b.buf.assign b.head v
    pure ({ b with buf := rb, head := incr b.capacity b.head }, b.head)

/-- Mirrors CircularBuffer::push_front (the rvalue overload).  The returned Nat is
the physical slot of the inserted element. -/
def pushFront (b : CircularBuffer α) (v : α) : Except CbError (CircularBuffer α × Nat) := do
  let b ← b.growOrFail
  let current := if b.head = 0 then b.capacity - 1 else b.head - 1
  match b.tail with
  | some t =>
    let rb ← b.buf.construct current v
    let newTail := if current = t then none else some t
    pure ({ b with buf := rb, head := current, tail := newTail }, current)
  | none =>
    let rb := b.buf.assign current v
    pure ({ b with buf := rb, head := current }, current)

/-- Mirrors the dynamic shrink check shared by pop_front, pop_back and remove:
under DynamicCapacity, when size has dropped to capacity / 4, halve the capacity. -/
def shrinkCheck (b : CircularBuffer α) : Except CbError (CircularBuffer α) :=
  if b.policy.capacityMode = .dynamicCapacity ∧ b.size = b.capacity / 4 then
    b.resize (b.capacity / 2) .discardOld
  else pure b

/-- Mirrors CircularBuffer::pop_front: empty check, move the value out of the slot
at m_head, destroy it, collapse the npos sentinel, advance m_head, then the dynamic
shrink check. -/
def popFront (b : CircularBuffer α) : Except CbError (α × CircularBuffer α) := do
  if b.size = 0 then .error .bufferEmpty
  else
    let v ← b.buf.read b.head
    let rb ← b.buf.destroy b.head
    let t := match b.tail with
      | none => b.head
      | some t => t
    let b1 := { b with buf := rb, head := incr b.capacity b.head, tail := some t }
    let b2 ← b1.shrinkCheck
    pure (v, b2)

/-- Mirrors CircularBuffer::pop_back: empty check, locate the last element one slot
before m_tail (or before m_head when full), move it out, destroy the slot, set
m_tail to that slot, then the dynamic shrink check. -/
def popBack (b : CircularBuffer α) : Except CbError (α × CircularBuffer α) := do
  if b.size = 0 then .error .bufferEmpty
  else
    let index := match b.tail with
      | none => decr b.capacity b.head
      | some t => decr b.capacity t
    let v ← b.buf.read index
    let rb ← b.buf.destroy index
    let b1 := { b with buf := rb, tail := some index }
    let b2 ← b1.shrinkCheck
    pure (v, b2)

/-- Shift loop of CircularBuffer::insert: starting at cur, assign into the current
slot the bits of the slot one step back (with wraparound) and step back, d times.
The while loop of the source runs while current differs from the target position,
which for indices below cap is exactly (start + cap - target) mod cap iterations,
the count the caller passes as d. -/
def shiftRun (cap : Nat) (rb : RawBuffer α) (cur d : Nat) : Except CbError (RawBuffer α) :=
  match d with
  | 0 => .ok rb
  | Nat.succ d => do
    let cp := decr cap cur
    let w ← rb.read cp
    shiftRun cap (rb.assign cur w) cp d

/-- Mirrors CircularBuffer::insert: the shared grow or fail preamble, then under a
still full buffer an eviction through pop_front or pop_back according to the insert
policy, then the physical insertion position (m_head + pos) mod capacity, the shift
toward the tail end (a construct of the last element into the slot at m_tail
followed by the assign loop) or a plain construct when inserting at the tail, and
finally the tail increment with the npos collapse.  The returned Nat is the physical
slot of the inserted element.  The none case of the final match is unreachable (the
eviction always leaves a non full buffer) and is mapped to garbage. -/
def insert (b : CircularBuffer α) (pos : Nat) (v : α) (policy : BufferInsertPolicy) :
    Except CbError (CircularBuffer α × Nat) := do
  let b ← b.growOrFail
  let b ←
    if b.tail = none then
      match policy with
      | .discardHead => (b.popFront).map Prod.snd
      | .discardTail => (b.popBack).map Prod.snd
    else pure b
  let realpos := (b.head + pos) % b.capacity
  match b.tail with
  | none => .error .garbage
  | some t =>
    if realpos ≠ t then
      let prev := decr b.capacity t
      let w ← b.buf.read prev
      let rb ← b.buf.construct t w
      let rb ← shiftRun b.capacity rb prev ((prev + b.capacity - realpos) % b.capacity)
      let rb := rb.assign realpos v
      let t2 := incr b.capacity t
      pure ({ b with buf := rb, tail := if t2 = b.head then none else some t2 }, realpos)
    else
      let rb ← b.buf.construct t v
      let t2 := incr b.capacity t
      pure ({ b with buf := rb, tail := if t2 = b.head then none else some t2 }, t)

/-- Mirrors the CircularBuffer copy constructor: a fresh arena of equal capacity,
m_head, m_tail and the policy copied verbatim, and for each i below size a copy of
the bits at physical slot i of the source constructed at physical slot i of the
copy. -/
def copyCtor (b : CircularBuffer α) : Except CbError (CircularBuffer α) := do
  let rb ← (List.range b.size).foldlM
    (fun rb i => do
      let v ← b.buf.read i
      rb.construct i v)
    (RawBuffer.alloc b.capacity)
  pure { buf := rb, head := b.head, tail := b.tail, policy := b.policy }

/-- Mirrors CircularBuffer::linearize: a no op when m_head == 0, otherwise a
std::rotate of the whole arena by m_head slots (which moves raw bits and does not
touch the debug liveness bitmap), the tail adjusted modulo capacity, m_head = 0. -/
def linearize (b : CircularBuffer α) : CircularBuffer α :=
  if b.head = 0 then b
  else
    { b with
      buf := ⟨b.buf.data.rotate b.head, b.buf.live⟩,
      head := 0,
      tail := b.tail.map fun t => (t + b.capacity - b.head) % b.capacity }

/-- Mirrors CircularBuffer::linearizeCopy: a copy through the copy constructor with
the policy overridden by the argument when present. -/
def linearizeCopy (b : CircularBuffer α) (p : Option BufferPolicy) :
    Except CbError (CircularBuffer α) := do
  let c ← b.copyCtor
  let np := p.getD b.policy
  pure (c.setPolicy (some np.capacityMode) (some np.storeMode))

/-- Convenience: push a whole list back to back with push_back. -/
def pushMany (b : CircularBuffer α) (vs : List α) : Except CbError (CircularBuffer α) :=
  vs.foldlM (fun b v => (b.pushBack v).map Prod.fst) b

/-- Reachable state bounds on the cursors: the head below the capacity and the tail
index below the capacity, or the degenerate zero capacity shape with head 0 and the
npos sentinel. -/
def wf (b : CircularBuffer α) : Bool :=
  if b.capacity = 0 then b.head == 0 && b.tail == none
  else decide (b.head < b.capacity) &&
    (match b.tail with
     | none => true
     | some t => decide (t < b.capacity))


/-- Witness state: capacity 10 filled with 0..9 under FixedCapacity, ThrowOnFull. -/
def c6full : CircularBuffer Nat :=
  (((mkBuffer 10 ⟨.fixedCapacity, .throwOnFull⟩).pushMany
    [0,1,2,3,4,5,6,7,8,9]).toOption).getD (mkBuffer 0 ⟨.fixedCapacity, .throwOnFull⟩)

/-- Witness state: capacity 5 after pushing 1..7 under ReplaceOnFull, a full rotated
buffer with head 2 and physical layout [6,7,3,4,5]. -/
def c8demo : CircularBuffer Nat :=
  (((mkBuffer 5 {}).pushMany [1,2,3,4,5,6,7]).toOption).getD (mkBuffer 0 {})

/-- Witness state: capacity 6 holding 10..14, a non full buffer with head 0 and
tail 5. -/
def insertDemo : CircularBuffer Nat :=
  (((mkBuffer 6 {}).pushMany [10,11,12,13,14]).toOption).getD (mkBuffer 0 {})

/-- Bound on the tail cursor: when m_tail is not the npos sentinel it indexes a
slot of the arena.  Every reachable state satisfies this. -/
def tailLt (b : CircularBuffer α) : Bool :=
  match b.tail with
  | none => true
  | some t => decide (t < b.capacity)

/-- Occupancy of the logical sequence: every logically reachable slot holds written
bits (no logical position reads uninitialized memory). -/
def occupancy (b : CircularBuffer α) : Bool :=
  (List.range b.size).all fun i =>
    (b.buf.data.getD ((b.head + i) % b.capacity) none).isSome

end CircularBuffer

end Circbuf


-- -----------------------------------------------------------------------------
-- Theorems
-- -----------------------------------------------------------------------------

deriving instance DecidableEq for Except

namespace Circbuf

open CircularBuffer

/-- C1: starting from an empty fixed capacity buffer of capacity 5 with the
replace oldest policy, pushing 1 through 7 with push_back gives the logical
sequence [3,4,5,6,7] and the physical layout [6,7,3,4,5].  After the fifth push
the buffer is full (tail is the npos sentinel) and stays so through pushes 6 and
7, so size stays equal to the capacity; pushes 6 and 7 return the slot at the
current head, which holds the oldest element (1, then 2), and leave the liveness
bitmap untouched, which shows the overwrite is an assignment: a construct on a
live slot would have failed with assertFail. -/
theorem c1_replace_oldest_scenario :
    ((((mkBuffer 5 {} : CircularBuffer Nat).pushMany [1,2,3,4,5]).map fun s5 =>
        (s5.tail, s5.size, s5.head, s5.buf.data.getD s5.head none, s5.buf.live))
      = .ok (none, 5, 0, some 1, List.replicate 5 true))
    ∧ ((((mkBuffer 5 {} : CircularBuffer Nat).pushMany [1,2,3,4,5]).bind fun s5 =>
        (s5.pushBack 6).map fun p6 =>
          (p6.2, p6.1.size, p6.1.head, p6.1.buf.data.getD p6.1.head none, p6.1.buf.live))
      = .ok (0, 5, 1, some 2, List.replicate 5 true))
    ∧ ((((mkBuffer 5 {} : CircularBuffer Nat).pushMany [1,2,3,4,5]).bind fun s5 =>
        (s5.pushBack 6).bind fun p6 =>
        (p6.1.pushBack 7).map fun p7 =>
          (p7.2, p7.1.size, p7.1.toList, p7.1.buf.data, p7.1.buf.live))
      = .ok (1, 5, [3,4,5,6,7].map some, [6,7,3,4,5].map some, List.replicate 5 true)) := by
  decide

/-- C2, failing input: on a DynamicCapacity buffer of capacity 1 holding one
element, pop_front returns the element but the quarter occupancy shrink calls
resize(0), which sets the npos sentinel without releasing the arena, so size()
afterward is 1 (equal to capacity) although no live element remains (the
liveness bitmap is all false), instead of the one-less size the claim states. -/
theorem c2_pop_shrink_to_zero_bug :
    (((mkBuffer 1 ⟨.dynamicCapacity, .replaceOnFull⟩ : CircularBuffer Nat).pushBack 7).bind
      fun p => (p.1.popFront).map fun q => (q.1, q.2.size, q.2.capacity, q.2.buf.live))
    = .ok (7, 1, 1, [false]) := by
  decide

/-- C3, failing input: resize(0, policy) on a capacity 5 buffer holding 1,2,3
destroys the elements and sets the npos sentinel but never swaps out the arena,
so afterward capacity() is still 5 and size() reports 5 (the sentinel means
full), with zero live slots, for either tie break policy; the claim states
size() == 0 and capacity() == 0. -/
theorem c3_resize_zero_bug :
    ((((mkBuffer 5 {} : CircularBuffer Nat).pushMany [1,2,3]).bind fun b =>
      (b.resize 0 .discardOld).map fun r => (r.size, r.capacity, r.buf.live))
    = .ok (5, 5, List.replicate 5 false))
    ∧ ((((mkBuffer 5 {} : CircularBuffer Nat).pushMany [1,2,3]).bind fun b =>
      (b.resize 0 .discardNew).map fun r => (r.size, r.capacity, r.buf.live))
    = .ok (5, 5, List.replicate 5 false)) := by
  decide

/-- C4, failing input: the copy constructor copies m_head, m_tail and the slots
at physical indices 0..size-1 verbatim.  On a full rotated source (capacity 2
after pushing 1,2,3: head 1, layout [3,2], logical [2,3]) the copy and the
linearizeCopy result keep head 1, so neither is linearized.  On a wrapped
partial source (capacity 3 after pushing 1,2,3,4 then one pop: logical [3,4]
occupying slots 2 and 0) the copy reads the never constructed slot 1 and its
logical sequence comes out [garbage, 4], not [3,4]. -/
theorem c4_copy_not_linearized_bug :
    ((((mkBuffer 2 {} : CircularBuffer Nat).pushMany [1,2,3]).bind fun b =>
      (b.copyCtor).bind fun c => (b.linearizeCopy none).map fun lc =>
        (b.toList, b.head, c.toList, c.head, c.linearized, lc.head, lc.linearized))
    = .ok ([some 2, some 3], 1, [some 2, some 3], 1, false, 1, false))
    ∧ ((((mkBuffer 3 {} : CircularBuffer Nat).pushMany [1,2,3,4]).bind fun b =>
      (b.popFront).bind fun p => (p.2.copyCtor).map fun c => (p.2.toList, c.toList))
    = .ok ([some 3, some 4], [none, some 4])) := by
  decide

/-- C5, failing sequence: push 1 and 2 into a capacity 3 buffer, pop the front
(slots live: only slot 1), copy construct (the copy marks slots 0..size-1 live,
here slot 0, while its head says the element sits in slot 1), then clear the
copy: clear destroys the slot at head, slot 1, which the liveness bitmap of the
copy records as not constructed, so the debug assertion of RawBuffer::destroy
fires. -/
theorem c5_liveness_assert_fires :
    ((((mkBuffer 3 {} : CircularBuffer Nat).pushMany [1,2]).bind fun b =>
      (b.popFront).bind fun p => (p.2.copyCtor).bind fun c => c.clear))
    = .error .assertFail := by
  decide

/-- C7, failing input: the grow branch of resize destroys physical slot i while
it moves out of slot (head + i) mod capacity (the line m_buffer.destroy(i)).
On a capacity 3 buffer whose single element sits in slot 1 (push 1, push 2, one
pop_front), resize(6) therefore destroys the never constructed slot 0 and the
debug liveness assertion fires, instead of moving the element and setting
head = 0, tail = size as the claim states. -/
theorem c7_resize_grow_destroy_bug :
    ((((mkBuffer 3 {} : CircularBuffer Nat).pushMany [1,2]).bind fun b =>
      (b.popFront).bind fun p => p.2.resize 6 .discardOld))
    = .error .assertFail := by
  decide

/-- C6: on a full buffer (tail at the npos sentinel) with positive capacity,
FixedCapacity mode and the ThrowOnFull store policy, push_back and push_front
both fail with BufferFull, and size equals capacity.  In this embedding a
failure is returned before any successor state is built, mirroring that the
source throws before mutating anything, so the buffer is left in its pre call
state. -/
theorem c6_reject_on_full (b : CircularBuffer α) (v w : α)
    (hcap : 0 < b.capacity)
    (hfull : b.tail = none)
    (hpol : b.policy = ⟨.fixedCapacity, .throwOnFull⟩) :
    b.pushBack v = .error .bufferFull ∧ b.pushFront w = .error .bufferFull ∧
      b.size = b.capacity := by
  have hc : b.capacity ≠ 0 := Nat.pos_iff_ne_zero.mp hcap
  refine ⟨?_, ?_, ?_⟩
  · simp [pushBack, growOrFail, hc, hfull, hpol]
    rfl
  · simp [pushFront, growOrFail, hc, hfull, hpol]
    rfl
  · simp [size, hfull]

/-- C6 witness: the capacity 10 buffer filled with 0..9 satisfies the
hypotheses, and push(42) on it fails with BufferFull at size 10. -/
theorem c6_reject_on_full_witness :
    0 < c6full.capacity ∧ c6full.tail = none ∧
      c6full.policy = ⟨.fixedCapacity, .throwOnFull⟩ ∧
      (c6full.pushBack 42 = .error .bufferFull ∧
        c6full.pushFront 42 = .error .bufferFull ∧ c6full.size = c6full.capacity) :=
  ⟨by decide, by decide, by decide,
    c6_reject_on_full c6full 42 42 (by decide) (by decide) (by decide)⟩

theorem okBind (a : β) (f : β → Except CbError γ) :
    (Except.ok a : Except CbError β) >>= f = f a := rfl

theorem errBind (e : CbError) (f : β → Except CbError γ) :
    (Except.error e : Except CbError β) >>= f = .error e := rfl

theorem pureEq (a : β) : (pure a : Except CbError β) = .ok a := rfl

theorem head_add_size_mod (h t c : Nat) (hh : h < c) (htc : t < c) :
    (h + (t + c - h) % c) % c = t := by
  have h1 : h + (t + c - h) = t + c := by omega
  rw [Nat.add_mod_mod, h1, Nat.add_mod_right, Nat.mod_eq_of_lt htc]

theorem getD_set_self (l : List (Option α)) (i : Nat) (v : Option α) (h : i < l.length) :
    (l.set i v).getD i none = v := by
  simp [List.getD_eq_getElem?_getD, List.getElem?_set_self, h]

theorem getD_set_ne (l : List (Option α)) (i j : Nat) (v : Option α) (h : j ≠ i) :
    (l.set i v).getD j none = l.getD j none := by
  simp [List.getD_eq_getElem?_getD, List.getElem?_set_ne (Ne.symm h)]

theorem mod_add_inj (c r a b : Nat) (ha : a < c) (hb : b < c) (hne : a ≠ b) :
    (r + a) % c ≠ (r + b) % c := by
  intro h
  have h2 : a ≡ b [MOD c] := by
    have h1 : a + r ≡ b + r [MOD c] := by
      unfold Nat.ModEq
      rw [Nat.add_comm a r, Nat.add_comm b r]
      exact h
    exact Nat.ModEq.add_right_cancel' r h1
  have h3 : a % c = b % c := h2
  rw [Nat.mod_eq_of_lt ha, Nat.mod_eq_of_lt hb] at h3
  exact hne h3

theorem incr_eq_mod (c t : Nat) (h : t < c) : incr c t = (t + 1) % c := by
  by_cases h1 : t + 1 = c
  · simp [incr, h1, Nat.mod_self]
  · rw [incr, if_neg h1, Nat.mod_eq_of_lt (by omega)]

theorem decr_succ_mod (c a : Nat) (hc : 0 < c) (ha : a < c) :
    decr c ((a + 1) % c) = a := by
  by_cases h1 : a + 1 = c
  · rw [h1, Nat.mod_self, decr, if_pos rfl]
    omega
  · rw [Nat.mod_eq_of_lt (by omega), decr, if_neg (by omega)]
    omega

theorem mod_of_lt_two (y c : Nat) (hc : c ≤ y) (hy : y < 2 * c) : y % c = y - c := by
  rw [Nat.mod_eq_sub_mod hc, Nat.mod_eq_of_lt (by omega)]

theorem size_formula (c h m : Nat) (hc : 0 < c) (hh : h < c) (hm : m < c) :
    ((h + m) % c + c - h) % c = m := by
  by_cases h1 : h + m < c
  · rw [Nat.mod_eq_of_lt h1]
    have h2 : h + m + c - h = m + c := by omega
    rw [h2, Nat.add_mod_right, Nat.mod_eq_of_lt hm]
  · rw [mod_of_lt_two (h + m) c (by omega) (by omega)]
    have h2 : h + m - c + c - h = m := by omega
    rw [h2, Nat.mod_eq_of_lt hm]

theorem ring_dist (c x a b : Nat) (hc : 0 < c) (hx : x < c) (ha : a < c) (hba : b ≤ a) :
    ((x + a) % c + c - (x + b) % c) % c = a - b := by
  have hb : b < c := by omega
  by_cases h1 : x + a < c
  · rw [Nat.mod_eq_of_lt h1, Nat.mod_eq_of_lt (show x + b < c by omega)]
    have h2 : x + a + c - (x + b) = (a - b) + c := by omega
    rw [h2, Nat.add_mod_right, Nat.mod_eq_of_lt (show a - b < c by omega)]
  · by_cases h2 : x + b < c
    · rw [mod_of_lt_two (x + a) c (by omega) (by omega), Nat.mod_eq_of_lt h2]
      have h3 : x + a - c + c - (x + b) = a - b := by omega
      rw [h3, Nat.mod_eq_of_lt (show a - b < c by omega)]
    · rw [mod_of_lt_two (x + a) c (by omega) (by omega), mod_of_lt_two (x + b) c (by omega) (by omega)]
      have h3 : x + a - c + c - (x + b - c) = (a - b) + c := by omega
      rw [h3, Nat.add_mod_right, Nat.mod_eq_of_lt (show a - b < c by omega)]

theorem shiftRun_spec (c r : Nat) (hc : 0 < c) (hr : r < c) :
    ∀ (d : Nat) (rb : RawBuffer α), rb.data.length = c → d < c →
    (∀ k, k < d → (rb.data.getD ((r + k) % c) none).isSome = true) →
    ∃ rb2, shiftRun c rb ((r + d) % c) d = .ok rb2 ∧
      rb2.live = rb.live ∧ rb2.data.length = c ∧
      (∀ k, 1 ≤ k → k ≤ d →
        rb2.data.getD ((r + k) % c) none = rb.data.getD ((r + k - 1) % c) none) ∧
      (∀ j, (∀ k, 1 ≤ k → k ≤ d → j ≠ (r + k) % c) →
        rb2.data.getD j none = rb.data.getD j none) := by
  intro d
  induction d with
  | zero =>
    intro rb hlen _ _
    exact ⟨rb, rfl, rfl, hlen, fun k hk1 hk2 => by omega, fun j _ => rfl⟩
  | succ d ih =>
    intro rb hlen hdc hocc
    have hdc' : d < c := by omega
    -- the current slot and the slot one step back
    have hcur : (r + (d + 1)) % c = ((r + d) % c + 1) % c := by
      rw [Nat.mod_add_mod]
      congr 1
    have hcp : decr c ((r + (d + 1)) % c) = (r + d) % c := by
      rw [hcur]
      exact decr_succ_mod c _ hc (Nat.mod_lt _ hc)
    -- the read one step back succeeds
    obtain ⟨w, hw⟩ : ∃ w, rb.data.getD ((r + d) % c) none = some w := by
      have := hocc d (by omega)
      exact Option.isSome_iff_exists.mp this
    have hread : rb.read ((r + d) % c) = .ok w := by
      rw [RawBuffer.read, hw]
    -- one unfolding of shiftRun
    have hstep : shiftRun c rb ((r + (d + 1)) % c) (d + 1)
        = shiftRun c (rb.assign ((r + (d + 1)) % c) w) ((r + d) % c) d := by
      rw [shiftRun]
      rw [hcp, hread]
      rfl
    set cur := (r + (d + 1)) % c with hcurdef
    set rb1 := rb.assign cur w with hrb1
    have hlen1 : rb1.data.length = c := by
      rw [hrb1, RawBuffer.assign]
      simpa using hlen
    have hlive1 : rb1.live = rb.live := rfl
    -- slots other than cur keep their bits in rb1
    have hskip : ∀ j, j ≠ cur → rb1.data.getD j none = rb.data.getD j none := by
      intro j hj
      rw [hrb1, RawBuffer.assign]
      exact getD_set_ne _ _ _ _ hj
    have hcur1 : rb1.data.getD cur none = some w := by
      rw [hrb1, RawBuffer.assign]
      exact getD_set_self _ _ _ (by rw [hlen]; exact Nat.mod_lt _ hc)
    -- distinct offsets below c give distinct slots
    have hne : ∀ a b : Nat, a < c → b < c → a ≠ b → (r + a) % c ≠ (r + b) % c :=
      fun a b ha hb hab => mod_add_inj c r a b ha hb hab
    have hocc1 : ∀ k, k < d → (rb1.data.getD ((r + k) % c) none).isSome = true := by
      intro k hk
      rw [hskip _ (hne k (d + 1) (by omega) hdc (by omega))]
      exact hocc k (by omega)
    obtain ⟨rb2, hrun, hlive2, hlen2, htouch, hrest⟩ := ih rb1 hlen1 hdc' hocc1
    refine ⟨rb2, ?_, ?_, hlen2, ?_, ?_⟩
    · rw [hstep]
      exact hrun
    · rw [hlive2, hlive1]
    · intro k hk1 hk2
      by_cases hkd : k = d + 1
      · subst hkd
        have h1 : rb2.data.getD cur none = rb1.data.getD cur none :=
          hrest cur (fun k' hk1' hk2' => hne (d + 1) k' hdc (by omega) (by omega))
        rw [← hcurdef, h1, hcur1, show r + (d + 1) - 1 = r + d from by omega, hw]
      · have hk2' : k ≤ d := by omega
        rw [htouch k hk1 hk2', show r + k - 1 = r + (k - 1) from by omega]
        exact hskip _ (hne (k - 1) (d + 1) (by omega) hdc (by omega))
    · intro j hj
      rw [hrest j (fun k hk1 hk2 => hj k hk1 (by omega))]
      exact hskip j (hj (d + 1) (by omega) (by omega))




theorem getD_range_eq_take (l : List (Option α)) (n : Nat) (hn : n ≤ l.length) :
    (List.range n).map (fun i => l.getD i none) = l.take n := by
  induction n with
  | zero => simp
  | succ k ih =>
    have hk : k < l.length := by omega
    rw [List.range_succ, List.map_append, ih (by omega), List.take_succ]
    simp [List.getD_eq_getElem?_getD, List.getElem?_eq_getElem hk]

theorem getD_range_self (l : List (Option α)) :
    (List.range l.length).map (fun i => l.getD i none) = l := by
  have h := getD_range_eq_take l l.length (Nat.le_refl _)
  rw [List.take_length] at h
  exact h

theorem take_cons_drop_eq (l : List (Option α)) (pos : Nat) (x : Option α) (h : pos ≤ l.length) :
    l.take pos ++ x :: l.drop pos
      = (List.range (l.length + 1)).map
          (fun i => if i < pos then l.getD i none else if i = pos then x else l.getD (i - 1) none) := by
  induction l generalizing pos with
  | nil =>
    have hp : pos = 0 := by simpa using h
    subst hp
    simp [List.range_succ]
  | cons a l ih =>
    cases pos with
    | zero =>
      rw [List.take_zero, List.drop_zero, List.nil_append, List.range_succ_eq_map,
        List.map_cons, List.map_map]
      have hmap : ∀ i ∈ List.range ((a :: l).length),
          ((fun i => if i < 0 then (a :: l).getD i none
            else if i = 0 then x else (a :: l).getD (i - 1) none) ∘ Nat.succ) i
          = (a :: l).getD i none := by
        intro i _
        simp [Function.comp]
      rw [List.map_congr_left hmap, getD_range_self]
      simp
    | succ p =>
      have hp : p ≤ l.length := by simpa using h
      simp only [List.length_cons]
      rw [List.take_succ_cons, List.drop_succ_cons, List.cons_append, ih p hp,
        List.range_succ_eq_map (l.length + 1), List.map_cons, List.map_map]
      rw [List.cons_eq_cons]
      constructor
      · rw [if_pos (Nat.succ_pos p)]
        rfl
      apply List.map_congr_left
      intro i hi
      simp only [Function.comp]
      by_cases h1 : i < p
      · rw [if_pos h1, if_pos (show i + 1 < p + 1 by omega)]
        simp
      · by_cases h2 : i = p
        · rw [if_neg h1, if_pos h2, if_neg (show ¬ i + 1 < p + 1 by omega),
            if_pos (show i + 1 = p + 1 by omega)]
        · rw [if_neg h1, if_neg h2, if_neg (show ¬ i + 1 < p + 1 by omega),
            if_neg (show ¬ i + 1 = p + 1 by omega)]
          have h3 : i + 1 - 1 = i := by omega
          rw [h3]
          cases i with
          | zero => omega
          | succ j => simp

theorem getD_map_range (f : Nat → Option α) (n i : Nat) (hi : i < n) :
    ((List.range n).map f).getD i none = f i := by
  rw [List.getD_eq_getElem?_getD, List.getElem?_eq_getElem (by simpa using hi)]
  simp

theorem size_after_inc (b : CircularBuffer α) (rb : RawBuffer α) (t : Nat)
    (hh : b.head < b.capacity) (hslt : b.size < b.capacity)
    (hts : t = (b.head + b.size) % b.capacity)
    (hlen : rb.data.length = b.capacity) :
    (CircularBuffer.mk rb b.head
      (if incr b.capacity t = b.head then none else some (incr b.capacity t))
      b.policy).size = b.size + 1 := by
  have hc0 : 0 < b.capacity := by omega
  have hinc : incr b.capacity t = (b.head + (b.size + 1)) % b.capacity := by
    rw [hts, incr_eq_mod _ _ (Nat.mod_lt _ hc0), Nat.mod_add_mod]
    congr 1
  by_cases hfull : incr b.capacity t = b.head
  · have hs1 : b.size + 1 = b.capacity := by
      by_contra hne
      have hlt : b.size + 1 < b.capacity := by omega
      have hinj := mod_add_inj b.capacity b.head (b.size + 1) 0 hlt hc0 (by omega)
      rw [hinc] at hfull
      apply hinj
      rw [hfull, Nat.add_zero, Nat.mod_eq_of_lt hh]
    simp only [size, if_pos hfull]
    show rb.data.length = b.size + 1
    rw [hlen, ← hs1]
  · simp only [size, if_neg hfull]
    show (incr b.capacity t + rb.data.length - b.head) % rb.data.length = b.size + 1
    have hs1 : b.size + 1 < b.capacity := by
      by_contra hge
      have heq : b.size + 1 = b.capacity := by omega
      rw [heq] at hinc
      rw [Nat.add_mod_right, Nat.mod_eq_of_lt hh] at hinc
      exact hfull hinc
    rw [hlen, hinc]
    exact size_formula _ _ _ hc0 hh hs1

/-- C9: on a non full buffer of positive capacity (the tail cursor holds an
index), with the cursors in range, every logical position holding written bits
and the tail slot not yet constructed, insert(pos, v, policy) with pos at most
size succeeds for every tie break policy, returns the physical slot
(head + pos) mod capacity, and the resulting logical sequence is the old one
with v placed at logical position pos and the elements from pos on shifted one
place toward the tail end; size grows by exactly one. -/
theorem c9_insert_shifts (b : CircularBuffer α) (pos : Nat) (v : α)
    (p : BufferInsertPolicy) (t : Nat)
    (ht : b.tail = some t) (htc : t < b.capacity) (hh : b.head < b.capacity)
    (hpos : pos ≤ b.size)
    (hocc : b.occupancy = true)
    (hdead : b.buf.live.getD t false = false) :
    Except.map (fun q => (q.1.toList, q.1.size, q.2)) (b.insert pos v p)
      = .ok (b.toList.take pos ++ some v :: b.toList.drop pos, b.size + 1,
             (b.head + pos) % b.capacity) := by
  have hc0 : 0 < b.capacity := by omega
  have hcne : b.capacity ≠ 0 := by omega
  have hslt : b.size < b.capacity := by
    simp only [size, ht]
    exact Nat.mod_lt _ hc0
  have hts : t = (b.head + b.size) % b.capacity := by
    have h1 := head_add_size_mod b.head t b.capacity hh htc
    rw [show b.size = (t + b.capacity - b.head) % b.capacity from by simp only [size, ht]]
    exact h1.symm
  have hgrow : b.growOrFail = Except.ok b := by
    simp [growOrFail, hcne, ht, pureEq, okBind]
  have hoccL : ∀ i, i < b.size →
      ∃ w, b.buf.data.getD ((b.head + i) % b.capacity) none = some w := by
    intro i hi
    simp only [occupancy, List.all_eq_true, List.mem_range] at hocc
    exact Option.isSome_iff_exists.mp (hocc i hi)
  have hlenT : b.toList.length = b.size := by simp [toList]
  have hdlen : b.buf.data.length = b.capacity := rfl
  -- present the claimed result list index by index
  have hrhs : b.toList.take pos ++ some v :: b.toList.drop pos
      = (List.range (b.size + 1)).map
          (fun i => if i < pos then b.toList.getD i none
                    else if i = pos then some v else b.toList.getD (i - 1) none) := by
    have h1 := take_cons_drop_eq b.toList pos (some v) (by omega)
    rw [hlenT] at h1
    exact h1
  by_cases hps : pos = b.size
  · -- inserting at the tail slot: the construct branch of insert
    have hrp : (b.head + pos) % b.capacity = t := by rw [hps, ← hts]
    have hdead2 : b.buf.live[t]?.getD false = false := by
      rw [← List.getD_eq_getElem?_getD]
      exact hdead
    have hcon : b.buf.construct t v
        = .ok ⟨b.buf.data.set t (some v), b.buf.live.set t true⟩ := by
      simp [RawBuffer.construct, hdead2]
    have hins : b.insert pos v p
        = .ok (CircularBuffer.mk ⟨b.buf.data.set t (some v), b.buf.live.set t true⟩
            b.head
            (if incr b.capacity t = b.head then none else some (incr b.capacity t))
            b.policy, t) := by
      simp [CircularBuffer.insert, hgrow, okBind, pureEq, ht, hrp, hcon]
    rw [hins]
    show Except.ok _ = Except.ok _
    refine congrArg Except.ok ?_
    have hlen1 : (b.buf.data.set t (some v)).length = b.capacity := by
      rw [List.length_set]
      rfl
    have hsz1 := size_after_inc b ⟨b.buf.data.set t (some v), b.buf.live.set t true⟩ t
      hh hslt hts hlen1
    refine Prod.ext ?_ (Prod.ext hsz1 hrp.symm)
    show (CircularBuffer.mk ⟨b.buf.data.set t (some v), b.buf.live.set t true⟩
        b.head
        (if incr b.capacity t = b.head then none else some (incr b.capacity t))
        b.policy).toList
      = List.take pos b.toList ++ some v :: List.drop pos b.toList
    rw [hrhs]
    simp only [toList, hsz1]
    apply List.map_congr_left
    intro i hi
    rw [List.mem_range] at hi
    simp only [capacity, RawBuffer.size, List.length_set]
    rw [hdlen]
    by_cases hip : i < pos
    · have hne1 : (b.head + i) % b.capacity ≠ t := by
        rw [hts]
        exact mod_add_inj _ _ _ _ (by omega) hslt (by omega)
      rw [if_pos hip, getD_set_ne _ _ _ _ hne1]
      rw [getD_map_range _ _ _ (by omega)]
    · have hieq : i = pos := by omega
      subst hieq
      rw [if_neg hip, if_pos rfl, hrp]
      exact getD_set_self _ _ _ (show t < b.buf.data.length from htc)
  · -- inserting strictly before the tail: the shift branch of insert
    have hplt : pos < b.size := by omega
    have hrlt : (b.head + pos) % b.capacity < b.capacity := Nat.mod_lt _ hc0
    have hrpne : (b.head + pos) % b.capacity ≠ t := by
      rw [hts]
      exact mod_add_inj _ _ _ _ (by omega) hslt (by omega)
    have hprev : decr b.capacity t = (b.head + (b.size - 1)) % b.capacity := by
      have h1 : t = (((b.head + (b.size - 1)) % b.capacity) + 1) % b.capacity := by
        rw [hts, Nat.mod_add_mod]
        congr 1
        omega
      rw [h1]
      exact decr_succ_mod _ _ hc0 (Nat.mod_lt _ hc0)
    obtain ⟨w0, hw0⟩ := hoccL (b.size - 1) (by omega)
    have hread0 : b.buf.read ((b.head + (b.size - 1)) % b.capacity) = .ok w0 := by
      rw [RawBuffer.read, hw0]
    have hdead2 : b.buf.live[t]?.getD false = false := by
      rw [← List.getD_eq_getElem?_getD]
      exact hdead
    have hcon : b.buf.construct t w0
        = .ok ⟨b.buf.data.set t (some w0), b.buf.live.set t true⟩ := by
      simp [RawBuffer.construct, hdead2]
    have hd : ((b.head + (b.size - 1)) % b.capacity + b.capacity
        - (b.head + pos) % b.capacity) % b.capacity = b.size - 1 - pos :=
      ring_dist b.capacity b.head (b.size - 1) pos hc0 hh (by omega) (by omega)
    have hlen1 : (b.buf.data.set t (some w0)).length = b.capacity := by
      rw [List.length_set]
      rfl
    have hocc1 : ∀ k, k < b.size - 1 - pos →
        (((⟨b.buf.data.set t (some w0), b.buf.live.set t true⟩ : RawBuffer α)).data.getD
          (((b.head + pos) % b.capacity + k) % b.capacity) none).isSome = true := by
      intro k hk
      have hidx : ((b.head + pos) % b.capacity + k) % b.capacity
          = (b.head + (pos + k)) % b.capacity := by
        rw [Nat.mod_add_mod]
        congr 1
        omega
      have hne2 : (b.head + (pos + k)) % b.capacity ≠ t := by
        rw [hts]
        exact mod_add_inj _ _ _ _ (by omega) hslt (by omega)
      show ((b.buf.data.set t (some w0)).getD
        (((b.head + pos) % b.capacity + k) % b.capacity) none).isSome = true
      rw [hidx, getD_set_ne _ _ _ _ hne2]
      obtain ⟨w, hw⟩ := hoccL (pos + k) (by omega)
      rw [hw]
      rfl
    obtain ⟨rb2, hrun, hlive2, hlen2, htouch, hrest⟩ :=
      shiftRun_spec b.capacity ((b.head + pos) % b.capacity) hc0 hrlt (b.size - 1 - pos)
        ⟨b.buf.data.set t (some w0), b.buf.live.set t true⟩ hlen1 (by omega) hocc1
    have hstart : ((b.head + pos) % b.capacity + (b.size - 1 - pos)) % b.capacity
        = (b.head + (b.size - 1)) % b.capacity := by
      rw [Nat.mod_add_mod]
      congr 1
      omega
    rw [hstart] at hrun
    have hins : b.insert pos v p
        = .ok (CircularBuffer.mk (rb2.assign ((b.head + pos) % b.capacity) v) b.head
            (if incr b.capacity t = b.head then none else some (incr b.capacity t))
            b.policy, (b.head + pos) % b.capacity) := by
      simp [CircularBuffer.insert, hgrow, okBind, pureEq, ht, hrpne, hprev, hread0,
        hcon, hd, hrun]
    rw [hins]
    show Except.ok _ = Except.ok _
    refine congrArg Except.ok ?_
    have hlenA : (rb2.assign ((b.head + pos) % b.capacity) v).data.length = b.capacity := by
      show (rb2.data.set ((b.head + pos) % b.capacity) (some v)).length = b.capacity
      rw [List.length_set, hlen2]
    have hsz1 := size_after_inc b (rb2.assign ((b.head + pos) % b.capacity) v) t
      hh hslt hts hlenA
    refine Prod.ext ?_ (Prod.ext hsz1 rfl)
    show (CircularBuffer.mk (rb2.assign ((b.head + pos) % b.capacity) v) b.head
        (if incr b.capacity t = b.head then none else some (incr b.capacity t))
        b.policy).toList
      = List.take pos b.toList ++ some v :: List.drop pos b.toList
    rw [hrhs]
    simp only [toList, hsz1]
    apply List.map_congr_left
    intro i hi
    rw [List.mem_range] at hi
    simp only [capacity, RawBuffer.size, RawBuffer.assign, List.length_set]
    rw [hlen2]
    show (rb2.data.set ((b.head + pos) % b.capacity) (some v)).getD
        ((b.head + i) % b.capacity) none = _
    by_cases hip : i < pos
    · -- slots before the insertion point are untouched
      have hne1 : (b.head + i) % b.capacity ≠ (b.head + pos) % b.capacity :=
        mod_add_inj _ _ _ _ (by omega) (by omega) (by omega)
      have hneT : (b.head + i) % b.capacity ≠ t := by
        rw [hts]
        exact mod_add_inj _ _ _ _ (by omega) hslt (by omega)
      have hnoShift : ∀ k, 1 ≤ k → k ≤ b.size - 1 - pos →
          (b.head + i) % b.capacity ≠ ((b.head + pos) % b.capacity + k) % b.capacity := by
        intro k hk1 hk2
        have hidx : ((b.head + pos) % b.capacity + k) % b.capacity
            = (b.head + (pos + k)) % b.capacity := by
          rw [Nat.mod_add_mod]
          congr 1
          omega
        rw [hidx]
        exact mod_add_inj _ _ _ _ (by omega) (by omega) (by omega)
      rw [if_pos hip, getD_set_ne _ _ _ _ hne1, hrest _ hnoShift]
      show (b.buf.data.set t (some w0)).getD ((b.head + i) % b.capacity) none = _
      rw [getD_set_ne _ _ _ _ hneT]
      rw [getD_map_range _ _ _ (by omega), hdlen]
    · by_cases hieq : i = pos
      · -- the inserted value itself
        subst hieq
        rw [if_neg hip, if_pos rfl]
        exact getD_set_self _ _ _ (by rw [hlen2]; exact hrlt)
      · by_cases his : i = b.size
        · -- the old last element moved into the tail slot
          subst his
          rw [if_neg hip, if_neg hieq]
          have hneR : (b.head + b.size) % b.capacity ≠ (b.head + pos) % b.capacity :=
            mod_add_inj _ _ _ _ hslt (by omega) (by omega)
          have hnoShift : ∀ k, 1 ≤ k → k ≤ b.size - 1 - pos →
              (b.head + b.size) % b.capacity
                ≠ ((b.head + pos) % b.capacity + k) % b.capacity := by
            intro k hk1 hk2
            have hidx : ((b.head + pos) % b.capacity + k) % b.capacity
                = (b.head + (pos + k)) % b.capacity := by
              rw [Nat.mod_add_mod]
              congr 1
              omega
            rw [hidx]
            exact mod_add_inj _ _ _ _ hslt (by omega) (by omega)
          rw [getD_set_ne _ _ _ _ hneR, hrest _ hnoShift]
          show (b.buf.data.set t (some w0)).getD ((b.head + b.size) % b.capacity) none = _
          rw [← hts, getD_set_self _ _ _ (show t < b.buf.data.length from htc), hw0.symm]
          rw [getD_map_range _ _ _ (by omega)]
          rw [hdlen]
        · -- the shifted elements between the insertion point and the old last slot
          have hilo : pos < i := by omega
          have hihi : i < b.size := by omega
          rw [if_neg hip, if_neg hieq]
          have hneR : (b.head + i) % b.capacity ≠ (b.head + pos) % b.capacity :=
            mod_add_inj _ _ _ _ (by omega) (by omega) (by omega)
          rw [getD_set_ne _ _ _ _ hneR]
          have hidx : (b.head + i) % b.capacity
              = ((b.head + pos) % b.capacity + (i - pos)) % b.capacity := by
            rw [Nat.mod_add_mod]
            congr 1
            omega
          rw [hidx, htouch (i - pos) (by omega) (by omega)]
          have hidx2 : ((b.head + pos) % b.capacity + (i - pos) - 1) % b.capacity
              = (b.head + (i - 1)) % b.capacity := by
            have h1 : (b.head + pos) % b.capacity + (i - pos) - 1
                = (b.head + pos) % b.capacity + (i - pos - 1) := by omega
            rw [h1, Nat.mod_add_mod]
            congr 1
            omega
          rw [hidx2]
          have hneT : (b.head + (i - 1)) % b.capacity ≠ t := by
            rw [hts]
            exact mod_add_inj _ _ _ _ (by omega) hslt (by omega)
          show (b.buf.data.set t (some w0)).getD ((b.head + (i - 1)) % b.capacity) none = _
          rw [getD_set_ne _ _ _ _ hneT]
          rw [getD_map_range _ _ _ (by omega), hdlen]

theorem linearize_of_head_zero (b : CircularBuffer α) (h : b.head = 0) :
    b.linearize = b := by
  simp [linearize, h]

theorem size_le_capacity (b : CircularBuffer α)
    (hh : b.head < b.capacity ∨ (b.head = 0 ∧ b.tail = none)) :
    b.size ≤ b.capacity := by
  cases htail : b.tail with
  | none => simp [size, htail]
  | some t =>
    have hcpos : 0 < b.capacity := by
      rcases hh with h | ⟨_, hnone⟩
      · omega
      · rw [hnone] at htail; cases htail
    simp only [size, htail]
    exact Nat.le_of_lt (Nat.mod_lt _ hcpos)

theorem toList_eq_take_of_head_zero (b : CircularBuffer α) (h0 : b.head = 0)
    (hsz : b.size ≤ b.capacity) :
    b.toList = b.buf.data.take b.size := by
  rw [toList]
  have hmap : ∀ i ∈ List.range b.size,
      b.buf.data.getD ((b.head + i) % b.capacity) none = b.buf.data.getD i none := by
    intro i hi
    rw [List.mem_range] at hi
    have hic : i < b.capacity := by omega
    rw [h0, Nat.zero_add, Nat.mod_eq_of_lt hic]
  rw [List.map_congr_left hmap]
  exact getD_range_eq_take _ _ hsz

theorem getD_rotate (l : List (Option α)) (k i : Nat) (hk : 0 < l.length) (hi : i < l.length) :
    (l.rotate k).getD i none = l.getD ((i + k) % l.length) none := by
  have h1 : i < (l.rotate k).length := by rw [List.length_rotate]; exact hi
  have h2 : (i + k) % l.length < l.length := Nat.mod_lt _ hk
  rw [List.getD_eq_getElem?_getD, List.getElem?_eq_getElem h1,
      List.getD_eq_getElem?_getD, List.getElem?_eq_getElem h2]
  simp [List.getElem_rotate]

/-- C8: for every buffer whose cursors are in range, linearize leaves head 0,
preserves capacity, size and the logical element sequence, makes the physical
prefix of the arena equal to the logical order, is the identity on an already
linearized buffer (head 0), and is idempotent. -/
theorem c8_linearize (b : CircularBuffer α)
    (hh : b.head < b.capacity ∨ (b.head = 0 ∧ b.tail = none)) :
    (b.linearize).head = 0 ∧
    (b.linearize).capacity = b.capacity ∧
    (b.linearize).size = b.size ∧
    (b.linearize).toList = b.toList ∧
    (b.linearize).toList = ((b.linearize).buf.data).take b.size ∧
    (b.head = 0 → b.linearize = b) ∧
    (b.linearize).linearize = b.linearize := by
  have hsz : b.size ≤ b.capacity := size_le_capacity b hh
  by_cases h0 : b.head = 0
  · have hl : b.linearize = b := linearize_of_head_zero b h0
    refine ⟨by rw [hl, h0], by rw [hl], by rw [hl], by rw [hl], ?_, fun _ => hl,
      by rw [hl]; exact hl⟩
    rw [hl]
    exact toList_eq_take_of_head_zero b h0 hsz
  · have hhead : b.head < b.capacity := by
      rcases hh with h | ⟨hz, _⟩
      · exact h
      · exact absurd hz h0
    have hcpos : 0 < b.capacity := by omega
    have hlen : (b.buf.data.rotate b.head).length = b.buf.data.length :=
      List.length_rotate _ _
    have hhead1 : (b.linearize).head = 0 := by simp [linearize, h0]
    have hcap1 : (b.linearize).capacity = b.capacity := by
      simp [linearize, h0, capacity, RawBuffer.size, hlen]
    have hsize1 : (b.linearize).size = b.size := by
      cases htail : b.tail with
      | none => simp [linearize, h0, size, htail, capacity, RawBuffer.size, hlen]
      | some t =>
        simp only [size, htail, linearize, if_neg h0, Option.map_some']
        simp only [capacity, RawBuffer.size, hlen]
        rw [Nat.sub_zero, Nat.add_mod_right, Nat.mod_mod_of_dvd _ dvd_rfl]
    have htl : (b.linearize).toList = b.toList := by
      rw [toList, toList, hsize1]
      apply List.map_congr_left
      intro i hi
      rw [List.mem_range] at hi
      have hic : i < b.capacity := by omega
      simp only [linearize, if_neg h0]
      simp only [capacity, RawBuffer.size, hlen]
      have hic2 : i < b.buf.data.length := hic
      have hcpos2 : 0 < b.buf.data.length := hcpos
      rw [Nat.zero_add, Nat.mod_eq_of_lt hic2]
      rw [getD_rotate _ _ _ hcpos2 hic2, Nat.add_comm i b.head]
    have htake : (b.linearize).toList = ((b.linearize).buf.data).take b.size := by
      have h := toList_eq_take_of_head_zero (b.linearize) hhead1
        (by rw [hsize1, hcap1]; exact hsz)
      rw [h, hsize1]
    exact ⟨hhead1, hcap1, hsize1, htl, htake, fun h => absurd h h0,
      linearize_of_head_zero _ hhead1⟩

/-- C10: on a non full buffer of positive capacity with the cursors in range,
insert(size, v, policy) is literally the same computation as push_back(v) for
every tie break policy: the same resulting state and the same returned slot,
or the same error. -/
theorem c10_insert_at_size_eq_push_back (b : CircularBuffer α) (v : α)
    (p : BufferInsertPolicy) (t : Nat)
    (ht : b.tail = some t) (htc : t < b.capacity) (hh : b.head < b.capacity) :
    b.insert b.size v p = b.pushBack v := by
  have hc : b.capacity ≠ 0 := by omega
  have hgrow : b.growOrFail = Except.ok b := by simp [growOrFail, hc, ht, pureEq, okBind]
  have hrp : (b.head + b.size) % b.capacity = t := by
    simp only [size, ht]
    exact head_add_size_mod b.head t b.capacity hh htc
  simp [CircularBuffer.insert, pushBack, hgrow, ht, hrp, okBind, pureEq]

/-- C8 witness: the capacity 5 buffer holding 1..7 (head 2, rotated) satisfies
the cursor hypothesis, and linearize behaves as claimed on it. -/
theorem c8_linearize_witness :
    (c8demo.head < c8demo.capacity ∨ (c8demo.head = 0 ∧ c8demo.tail = none)) ∧
    ((c8demo.linearize).head = 0 ∧
     (c8demo.linearize).capacity = c8demo.capacity ∧
     (c8demo.linearize).size = c8demo.size ∧
     (c8demo.linearize).toList = c8demo.toList ∧
     (c8demo.linearize).toList = ((c8demo.linearize).buf.data).take c8demo.size ∧
     (c8demo.head = 0 → c8demo.linearize = c8demo) ∧
     (c8demo.linearize).linearize = c8demo.linearize) :=
  ⟨by decide, c8_linearize c8demo (by decide)⟩

/-- C9 witness: inserting 99 at logical position 2 of the capacity 6 buffer
holding 10..14 gives the logical sequence 10,11,99,12,13,14 at size 6,
discharging every hypothesis of the insert theorem by evaluation. -/
theorem c9_insert_shifts_witness :
    (insertDemo.tail = some 5 ∧ 5 < insertDemo.capacity ∧
      insertDemo.head < insertDemo.capacity ∧ 2 ≤ insertDemo.size ∧
      insertDemo.occupancy = true ∧ insertDemo.buf.live.getD 5 false = false) ∧
    Except.map (fun q => (q.1.toList, q.1.size, q.2)) (insertDemo.insert 2 99 .discardHead)
      = .ok (insertDemo.toList.take 2 ++ some 99 :: insertDemo.toList.drop 2,
             insertDemo.size + 1, (insertDemo.head + 2) % insertDemo.capacity) :=
  ⟨⟨by decide, by decide, by decide, by decide, by decide, by decide⟩,
    c9_insert_shifts insertDemo 2 99 .discardHead 5 (by decide) (by decide) (by decide)
      (by decide) (by decide) (by decide)⟩

/-- C10 witness: on the capacity 6 buffer holding 10..14, insert at position
size() equals push_back, discharging the hypotheses by evaluation. -/
theorem c10_insert_eq_push_back_witness :
    (insertDemo.tail = some 5 ∧ 5 < insertDemo.capacity ∧
      insertDemo.head < insertDemo.capacity) ∧
    insertDemo.insert insertDemo.size 99 .discardTail = insertDemo.pushBack 99 :=
  ⟨⟨by decide, by decide, by decide⟩,
    c10_insert_at_size_eq_push_back insertDemo 99 .discardTail 5
      (by decide) (by decide) (by decide)⟩

end Circbuf
